import Mathlib

set_option maxRecDepth 8000

/-
Shallow embedding of the shared-memory circular-buffer subsystem of the
3-coloring exercise (src/1B-3coloring-filipppp: shm.c / shm.h,
circular_buffer.c / circular_buffer.h, supervisor.c).

Modelling conventions:
* C longs become Lean Int; sizes and semaphore counts become Nat.
* The named POSIX semaphores are modelled by their counts, carried in the
  buffer state.  A sem_wait that would block forever in the modelled
  sequential run (count 0, no other process to post) makes the operation
  return none.  A sem_wait interrupted by a signal (returning -1, errno
  EINTR) is injected through an explicit Bool oracle: true means the wait
  succeeded, false means it returned -1.
* The shared halt flag can be set concurrently by the supervisor, so the
  value add_solution reads at loop iteration i is supplied by an oracle
  haltAt : Nat -> Bool; in a run with no concurrent writer it is the
  constant function returning the stored flag.
* Operations additionally return the trace of words they stored into the
  data array, so that theorems can speak about what was written and in
  which order.
-/

namespace OSUE

/-- Capacity of the circular buffer, MAX_DATA in shm.h. -/
def MAX_DATA : Nat := 400

/-- The shared_memory_t struct of shm.h: halt flag, data array (modelled as
a list of MAX_DATA Ints), and the two cursors (kept reduced mod MAX_DATA by
the code). -/
structure shared_memory_t where
  halt : Bool
  data : List Int
  write_idx : Nat
  read_idx : Nat
deriving DecidableEq, Repr

/-- The circular_buffer_t struct of circular_buffer.h, with the three named
semaphores replaced by their counts.  The fd field is omitted: it plays no
role in the buffer protocol. -/
structure circular_buffer_t where
  shm : shared_memory_t
  sem_free : Nat
  sem_used : Nat
  sem_mutex : Nat
deriving DecidableEq, Repr

/-- One loop iteration body of add_solution after the halt check and the
successful sem_wait(sem_free): store the word at write_idx, advance
write_idx mod MAX_DATA, sem_post(sem_used).  The sem_wait(sem_free) decrement
is included here. -/
def writeWord (w : Int) (st : circular_buffer_t) : circular_buffer_t :=
  { st with
    sem_free := st.sem_free - 1,
    sem_used := st.sem_used + 1,
    shm := { st.shm with
      data := st.shm.data.set st.shm.write_idx w,
      write_idx := (st.shm.write_idx + 1) % MAX_DATA } }

/-- The sem_post(sem_mutex) performed on every exit path of add_solution
that runs after the mutex was acquired (and, bug-faithfully, also on the
path where sem_wait(sem_mutex) itself failed). -/
def mutexPost (st : circular_buffer_t) : circular_buffer_t :=
  { st with sem_mutex := st.sem_mutex + 1 }

/-- The for-loop of add_solution, one word of the frame per iteration.
ws are the words still to be written, i is the absolute iteration index
(0 for the header).  Each iteration: read halt (value haltAt i); if set,
sem_post(mutex) and return false.  Then sem_wait(sem_free): if interrupted
(freeOk i = false), sem_post(mutex) and return false; if it would block
forever (count 0), the run does not terminate (none).  Otherwise store the
word and continue.  After the last word, sem_post(mutex) and return true.
The returned list is the trace of words actually stored. -/
def writeLoop (haltAt freeOk : Nat → Bool) :
    List Int → Nat → circular_buffer_t →
    Option (Bool × circular_buffer_t × List Int)
  | [], _, st => some (true, mutexPost st, [])
  | w :: ws, i, st =>
    if haltAt i then some (false, mutexPost st, [])
    else if freeOk i then
      if st.sem_free = 0 then none
      else
        match writeLoop haltAt freeOk ws (i + 1) (writeWord w st) with
        | none => none
        | some (ok, st', tr) => some (ok, st', w :: tr)
    else some (false, mutexPost st, [])

/-- The sequence of words the loop of add_solution stores for a frame:
iteration 0 stores size (the header), iteration i >= 1 stores edges[i-1]. -/
def frameWords (edges : List Int) (size : Nat) : List Int :=
  (List.range (size + 1)).map (fun i => if i = 0 then (size : Int) else edges.getD (i - 1) 0)

/-- add_solution of circular_buffer.c.  mutexOk tells whether the initial
sem_wait(sem_mutex) was interrupted; on interruption the code (bug-faithfully)
executes sem_post(sem_mutex) and returns false.  Otherwise the wait blocks
until the mutex count is positive; with no concurrent holder in the modelled
run, count 0 means the call never returns (none). -/
def add_solution (mutexOk : Bool) (haltAt freeOk : Nat → Bool)
    (edges : List Int) (size : Nat) (st : circular_buffer_t) :
    Option (Bool × circular_buffer_t × List Int) :=
  if mutexOk = false then some (false, mutexPost st, [])
  else if st.sem_mutex = 0 then none
  else writeLoop haltAt freeOk (frameWords edges size) 0
    { st with sem_mutex := st.sem_mutex - 1 }

/-- read_buffer of circular_buffer.c.  usedOk tells whether the
sem_wait(sem_used) was interrupted; on interruption the code (bug-faithfully)
executes sem_post(sem_used) and returns -1.  Otherwise the wait blocks until
the used count is positive (none if that never happens in the modelled run);
then the word at read_idx is read, read_idx advances mod MAX_DATA, and
sem_post(sem_free) runs. -/
def read_buffer (usedOk : Bool) (st : circular_buffer_t) :
    Option (Int × circular_buffer_t) :=
  if usedOk = false then some (-1, { st with sem_used := st.sem_used + 1 })
  else if st.sem_used = 0 then none
  else some (st.shm.data.getD st.shm.read_idx 0,
    { st with
      sem_used := st.sem_used - 1,
      sem_free := st.sem_free + 1,
      shm := { st.shm with read_idx := (st.shm.read_idx + 1) % MAX_DATA } })

/-- n sequential uninterrupted read_buffer calls, collecting the values
read in order (the consumer side of the round-trip scenario). -/
def readN : Nat → circular_buffer_t → Option (List Int × circular_buffer_t)
  | 0, st => some ([], st)
  | n + 1, st =>
    match read_buffer true st with
    | none => none
    | some (x, st1) =>
      match readN n st1 with
      | none => none
      | some (xs, st2) => some (x :: xs, st2)

/-- print_solution_string of circular_buffer.c, with uninterrupted semaphore
waits: reads size words, returning early as soon as a read yields -1.  The
returned list is the sequence of words actually printed. -/
def print_solution_string : Nat → circular_buffer_t →
    Option (List Int × circular_buffer_t)
  | 0, st => some ([], st)
  | n + 1, st =>
    match read_buffer true st with
    | none => none
    | some (temp, st1) =>
      if temp = -1 then some ([], st1)
      else
        match print_solution_string n st1 with
        | none => none
        | some (printed, st2) => some (temp :: printed, st2)

/-- skip_solution of circular_buffer.c, with uninterrupted semaphore waits:
reads and discards size words, returning early as soon as a read yields -1. -/
def skip_solution : Nat → circular_buffer_t → Option circular_buffer_t
  | 0, st => some st
  | n + 1, st =>
    match read_buffer true st with
    | none => none
    | some (temp, st1) =>
      if temp = -1 then some st1
      else skip_solution n st1

/-- Outcome of one iteration of the supervisor's while loop. -/
inductive sup_outcome where
  /-- read_buffer returned -1 for the header: the supervisor either retries
  (EINTR) or tears down and exits with failure. -/
  | fail (st : circular_buffer_t)
  /-- min_deletions reached 0: the supervisor prints that the graph is
  3-colorable and sets quit = 1. -/
  | halted (min_deletions : Int) (st : circular_buffer_t)
  /-- The loop continues with the given min_deletions; reported is the list
  of payload words printed for an improved solution ([] on the skip path). -/
  | next (min_deletions : Int) (reported : List Int) (st : circular_buffer_t)
deriving DecidableEq, Repr

/-- One iteration of the supervisor's while loop (supervisor.c, main):
read a header word, compute deletions = size / 2 (C truncating division),
record a new best when this is the first frame (min_deletions == -1) or a
strict improvement, announcing 3-colorability when the new best is 0,
printing the payload otherwise; on no improvement, skip the payload.
The C code passes the header (a long) as the size_t argument of
print_solution_string / skip_solution; the model uses Int.toNat, which
agrees for the nonnegative headers the claims are about. -/
def supervisor_step (min_deletions : Int) (st : circular_buffer_t) :
    Option sup_outcome :=
  match read_buffer true st with
  | none => none
  | some (size, st1) =>
    if size = -1 then some (.fail st1)
    else
      let deletions := Int.tdiv size 2
      if min_deletions = -1 ∨ deletions < min_deletions then
        if deletions = 0 then some (.halted deletions st1)
        else
          match print_solution_string size.toNat st1 with
          | none => none
          | some (reported, st2) => some (.next deletions reported st2)
      else
        match skip_solution size.toNat st1 with
        | none => none
        | some st2 => some (.next min_deletions [] st2)

/-- Result of running the supervisor's while loop to completion. -/
inductive loop_result where
  /-- Termination because min_deletions reached 0: 3-colorability announced,
  quit = 1, the loop body never runs again. -/
  | announced (min_deletions : Int) (st : circular_buffer_t)
  /-- Termination because a header read failed. -/
  | read_error (st : circular_buffer_t)
deriving DecidableEq, Repr

/-- The supervisor's while (!quit) loop, fuel-bounded: none when the fuel
runs out (or a read would block forever). -/
def supervisor_loop : Nat → Int → circular_buffer_t → Option loop_result
  | 0, _, _ => none
  | fuel + 1, min_deletions, st =>
    match supervisor_step min_deletions st with
    | none => none
    | some (.fail st1) => some (.read_error st1)
    | some (.halted m st1) => some (.announced m st1)
    | some (.next m _ st1) => supervisor_loop fuel m st1

/-- The words currently stored but not yet consumed: sem_used many words
starting at read_idx, wrapping mod MAX_DATA. -/
def contents (st : circular_buffer_t) : List Int :=
  (List.range st.sem_used).map
    (fun k => st.shm.data.getD ((st.shm.read_idx + k) % MAX_DATA) 0)

/-- State invariant of the buffer (spec section 3): the data array has
exactly MAX_DATA words, the read cursor is reduced, the write cursor sits
sem_used slots after the read cursor, and used + free accounts for the whole
capacity. -/
def bufInv (st : circular_buffer_t) : Prop :=
  st.shm.data.length = MAX_DATA ∧
  st.shm.read_idx < MAX_DATA ∧
  st.shm.write_idx = (st.shm.read_idx + st.sem_used) % MAX_DATA ∧
  st.sem_used + st.sem_free = MAX_DATA

instance (st : circular_buffer_t) : Decidable (bufInv st) := by
  unfold bufInv; infer_instance

/-- The three named semaphores of circular_buffer.c. -/
inductive sem_name where
  | free
  | used
  | mutex
deriving DecidableEq, Repr

/-- A cleanup action performed on a rollback path of open_cbuff(server = true). -/
inductive rollback_act where
  | sem_close (s : sem_name)
  | sem_unlink (s : sem_name)
  /-- close_shm(shm, fd, true): munmap + close(fd) + shm_unlink of the region. -/
  | close_shm_teardown
deriving DecidableEq, Repr

/-- The acquisition steps of open_cbuff(server = true), in program order. -/
inductive open_step where
  | shm_open_step
  | sem_open_free
  | sem_open_used
  | sem_open_mutex
deriving DecidableEq, Repr

/-- open_cbuff(server = true) of circular_buffer.c with failure injection:
failAt says which acquisition steps fail.  Returns (success, semaphores
successfully created before the failure, rollback actions performed in
order).  The duplicated sem_close/sem_unlink of SEM_FREE on the
sem_open(SEM_MUTEX) failure path reproduces the source lines faithfully. -/
def open_cbuff_server (failAt : open_step → Bool) :
    Bool × List sem_name × List rollback_act :=
  if failAt .shm_open_step then (false, [], [])
  else if failAt .sem_open_free then (false, [], [.close_shm_teardown])
  else if failAt .sem_open_used then
    (false, [.free], [.sem_close .free, .sem_unlink .free, .close_shm_teardown])
  else if failAt .sem_open_mutex then
    (false, [.free, .used],
      [.sem_close .free, .sem_unlink .free,
       .sem_close .free, .sem_unlink .free, .close_shm_teardown])
  else (true, [.free, .used, .mutex], [])

/-- POSIX success condition for shm_open as used by open_shm: with O_CREAT
and no O_EXCL the open succeeds whether or not the name exists; without
O_CREAT it succeeds only when the name exists. -/
def shm_open_ok (nameExists o_creat o_excl : Bool) : Bool :=
  if nameExists then !(o_creat && o_excl) else o_creat

/-- open_shm of shm.c with ftruncate and mmap assumed to succeed.  The
server passes flags O_RDWR | O_CREAT (no O_EXCL), so the open succeeds even
when the region name already exists; the server branch then re-initialises
read_idx, write_idx and halt, keeping whatever data the pre-existing region
held (a fresh region is all zeroes after ftruncate).  existing is the
pre-existing region under the fixed name, if any. -/
def open_shm (existing : Option shared_memory_t) (server : Bool) :
    Option shared_memory_t :=
  if shm_open_ok existing.isSome server false then
    if server then
      some { halt := false,
             data := (existing.map shared_memory_t.data).getD (List.replicate MAX_DATA 0),
             write_idx := 0, read_idx := 0 }
    else existing
  else none

/-- POSIX sem_open with O_CREAT | O_EXCL as used on the server path of
open_cbuff: fails exactly when the name already exists. -/
def sem_open_excl (nameExists : Bool) (initVal : Nat) : Option Nat :=
  if nameExists then none else some initVal

/-- Failure injection for the teardown path: which individual cleanup calls
of close_cbuff / close_shm fail. -/
structure close_fail_t where
  sem_close_free : Bool
  sem_close_used : Bool
  sem_close_mutex : Bool
  sem_unlink_free : Bool
  sem_unlink_used : Bool
  sem_unlink_mutex : Bool
  munmap_fail : Bool
  close_fd_fail : Bool
  shm_unlink_fail : Bool
deriving DecidableEq, Repr

/-- An individual cleanup step attempted during close_cbuff. -/
inductive teardown_step where
  | sem_close_step (s : sem_name)
  | sem_unlink_step (s : sem_name)
  | munmap_step
  | close_fd_step
  | shm_unlink_step
deriving DecidableEq, Repr

/-- close_shm of shm.c: status starts true; munmap, close(fd) and (server
only) shm_unlink are each attempted unconditionally, each failure setting
status to false. -/
def close_shm (f : close_fail_t) (server : Bool) : Bool :=
  let status := true
  let status := if f.munmap_fail then false else status
  let status := if f.close_fd_fail then false else status
  let status := if server then if f.shm_unlink_fail then false else status else status
  status

/-- The cleanup steps close_cbuff attempts, in program order: the three
sem_close calls, then (server only) the three sem_unlink calls, then the
steps of close_shm.  The list does not depend on which steps fail: the
straight-line source skips no step. -/
def close_cbuff_steps (server : Bool) : List teardown_step :=
  [.sem_close_step .free, .sem_close_step .used, .sem_close_step .mutex] ++
  (if server then
    [.sem_unlink_step .free, .sem_unlink_step .used, .sem_unlink_step .mutex]
   else []) ++
  [.munmap_step, .close_fd_step] ++
  (if server then [.shm_unlink_step] else [])

/-- close_cbuff of circular_buffer.c: the return values of the sem_close
and sem_unlink calls are ignored, and the function returns exactly what
close_shm returns.  The second component is the list of cleanup steps
attempted. -/
def close_cbuff (f : close_fail_t) (server : Bool) : Bool × List teardown_step :=
  (close_shm f server, close_cbuff_steps server)

/-- Whether failure injection f makes the given cleanup step fail. -/
def step_fails (f : close_fail_t) : teardown_step → Bool
  | .sem_close_step .free => f.sem_close_free
  | .sem_close_step .used => f.sem_close_used
  | .sem_close_step .mutex => f.sem_close_mutex
  | .sem_unlink_step .free => f.sem_unlink_free
  | .sem_unlink_step .used => f.sem_unlink_used
  | .sem_unlink_step .mutex => f.sem_unlink_mutex
  | .munmap_step => f.munmap_fail
  | .close_fd_step => f.close_fd_fail
  | .shm_unlink_step => f.shm_unlink_fail

/-- Whether at least one attempted cleanup step failed. -/
def any_step_failed (f : close_fail_t) (server : Bool) : Bool :=
  (close_cbuff_steps server).any (step_fails f)

/-- A freshly created buffer: all-zero data, cursors 0, halt clear,
semaphore counts at their initial values (free = MAX_DATA, used = 0,
mutex = 1). -/
def st0 : circular_buffer_t :=
  { shm := { halt := false, data := List.replicate MAX_DATA 0,
             write_idx := 0, read_idx := 0 },
    sem_free := MAX_DATA, sem_used := 0, sem_mutex := 1 }

/-- st0 after the frame with payload [-1, 7] was submitted: the buffer holds
the words 2, -1, 7. -/
def stA : circular_buffer_t :=
  { shm := { halt := false,
             data := [2, -1, 7] ++ List.replicate 397 0,
             write_idx := 3, read_idx := 0 },
    sem_free := 397, sem_used := 3, sem_mutex := 1 }

/-- stA after the supervisor read the header 2 and then stopped draining at
the stored payload word -1: the payload word 7 is still unconsumed. -/
def stB : circular_buffer_t :=
  { shm := { halt := false,
             data := [2, -1, 7] ++ List.replicate 397 0,
             write_idx := 3, read_idx := 2 },
    sem_free := 399, sem_used := 1, sem_mutex := 1 }

/-- A buffer whose single unconsumed word is the stored value -1. -/
def stNeg : circular_buffer_t :=
  { shm := { halt := false, data := -1 :: List.replicate 399 0,
             write_idx := 1, read_idx := 0 },
    sem_free := 399, sem_used := 1, sem_mutex := 1 }

/-- stNeg after read_buffer consumed its single word. -/
def stNegF : circular_buffer_t :=
  { shm := { halt := false, data := -1 :: List.replicate 399 0,
             write_idx := 1, read_idx := 1 },
    sem_free := 400, sem_used := 0, sem_mutex := 1 }

/-- A buffer holding exactly the frame of the spec's skip scenario: header 4,
payload 10, 20, 30, 5. -/
def stSkip : circular_buffer_t :=
  { shm := { halt := false,
             data := [4, 10, 20, 30, 5] ++ List.replicate 395 0,
             write_idx := 5, read_idx := 0 },
    sem_free := 395, sem_used := 5, sem_mutex := 1 }

/-- A buffer whose single unconsumed word is a frame header 0 (a perfect
coloring). -/
def stZero : circular_buffer_t :=
  { shm := { halt := false, data := 0 :: List.replicate 399 7,
             write_idx := 1, read_idx := 0 },
    sem_free := 399, sem_used := 1, sem_mutex := 1 }

/-- A pre-existing shared memory region with stale state, used to show that
open_shm(server = true) silently reuses it. -/
def stale_shm : shared_memory_t :=
  { halt := true, data := List.replicate MAX_DATA 7, write_idx := 123, read_idx := 45 }

/-- Failure injection for open_cbuff(server = true) where exactly the third
sem_open call, the one creating SEM_MUTEX, fails. -/
def mutex_open_fails : open_step → Bool
  | .sem_open_mutex => true
  | _ => false

/-- Failure injection where only sem_close(sem_free) fails. -/
def only_sem_close_free_fails : close_fail_t :=
  { sem_close_free := true, sem_close_used := false, sem_close_mutex := false,
    sem_unlink_free := false, sem_unlink_used := false, sem_unlink_mutex := false,
    munmap_fail := false, close_fd_fail := false, shm_unlink_fail := false }

/-! ### Helper lemmas about list access and modular index windows -/

theorem getD_set_self : ∀ (l : List Int) (i : Nat) (w : Int), i < l.length →
    (l.set i w).getD i 0 = w
  | _ :: _, 0, _, _ => rfl
  | _ :: l, i + 1, w, h => by
    simpa using getD_set_self l i w (by simpa using h)
  | [], _, _, h => by simp at h

theorem getD_set_ne : ∀ (l : List Int) (i j : Nat) (w : Int), i ≠ j →
    (l.set i w).getD j 0 = l.getD j 0
  | [], _, _, _, _ => by simp
  | _ :: _, 0, 0, _, h => absurd rfl h
  | _ :: _, 0, _ + 1, _, _ => by simp
  | _ :: _, _ + 1, 0, _, _ => by simp
  | _ :: l, i + 1, j + 1, w, h => by
    simpa using getD_set_ne l i j w (fun hh => h (by omega))

/-- Two offsets inside one window of length n land on the same slot mod n
only if they are equal. -/
theorem add_mod_window_inj (r k l n : Nat) (hk : k < n) (hl : l < n)
    (h : (r + k) % n = (r + l) % n) : k = l := by
  have hmod : k % n = l % n := Nat.ModEq.add_left_cancel' r h
  rwa [Nat.mod_eq_of_lt hk, Nat.mod_eq_of_lt hl] at hmod

theorem range_map_getD : ∀ (l : List Int),
    (List.range l.length).map (fun i => l.getD i 0) = l
  | [] => rfl
  | a :: l => by
    rw [List.length_cons, List.range_succ_eq_map, List.map_cons, List.map_map]
    congr 1
    have h : ((fun i => (a :: l).getD i 0) ∘ Nat.succ) = (fun i => l.getD i 0) := by
      funext i; simp
    rw [h, range_map_getD l]

theorem frameWords_length (edges : List Int) (size : Nat) :
    (frameWords edges size).length = size + 1 := by
  simp [frameWords]

theorem frameWords_cons (edges : List Int) (size : Nat) :
    frameWords edges size
      = (size : Int) :: (List.range size).map (fun i => edges.getD i 0) := by
  rw [frameWords, List.range_succ_eq_map, List.map_cons, List.map_map]
  congr 1

theorem frameWords_self (edges : List Int) :
    frameWords edges edges.length = (edges.length : Int) :: edges := by
  rw [frameWords_cons, range_map_getD]

/-! ### The contents abstraction: one read step, one write step -/

theorem contents_length (st : circular_buffer_t) :
    (contents st).length = st.sem_used := by
  simp [contents]

/-- Reading from a buffer whose unconsumed words are x :: xs returns x,
pops it, and preserves the invariant. -/
theorem read_buffer_cons (st : circular_buffer_t) (x : Int) (xs : List Int)
    (hinv : bufInv st) (hc : contents st = x :: xs) :
    ∃ st', read_buffer true st = some (x, st') ∧ bufInv st' ∧ contents st' = xs ∧
      st'.sem_used + 1 = st.sem_used ∧ st'.sem_free = st.sem_free + 1 ∧
      st'.shm.read_idx = (st.shm.read_idx + 1) % MAX_DATA := by
  obtain ⟨hlen, hr, hw, hcount⟩ := hinv
  have hu : st.sem_used ≠ 0 := by
    intro h0
    rw [contents, h0] at hc
    simp at hc
  obtain ⟨u, hu'⟩ : ∃ u, st.sem_used = u + 1 := ⟨st.sem_used - 1, by omega⟩
  have hcc : contents st = st.shm.data.getD st.shm.read_idx 0 ::
      (List.range u).map
        (fun k => st.shm.data.getD ((st.shm.read_idx + (k + 1)) % MAX_DATA) 0) := by
    rw [contents, hu', List.range_succ_eq_map, List.map_cons, List.map_map]
    congr 1
    rw [Nat.add_zero, Nat.mod_eq_of_lt hr]
  rw [hcc] at hc
  injection hc with hx hxs
  refine ⟨{ st with
      sem_used := st.sem_used - 1,
      sem_free := st.sem_free + 1,
      shm := { st.shm with read_idx := (st.shm.read_idx + 1) % MAX_DATA } },
    ?_, ⟨hlen, ?_, ?_, ?_⟩, ?_, ?_, ?_, ?_⟩
  · rw [read_buffer, if_neg (by simp), if_neg hu, hx]
  · exact Nat.mod_lt _ (by decide)
  · show st.shm.write_idx = ((st.shm.read_idx + 1) % MAX_DATA + (st.sem_used - 1)) % MAX_DATA
    rw [Nat.mod_add_mod, hw, hu']
    congr 1
    omega
  · show st.sem_used - 1 + (st.sem_free + 1) = MAX_DATA
    omega
  · show (List.range (st.sem_used - 1)).map
        (fun k => st.shm.data.getD (((st.shm.read_idx + 1) % MAX_DATA + k) % MAX_DATA) 0)
        = xs
    rw [← hxs, hu']
    have h1 : st.sem_used - 1 = u := by omega
    rw [show u + 1 - 1 = u from rfl]
    refine List.map_congr_left (fun k _ => ?_)
    rw [Nat.mod_add_mod]
    congr 2
    omega
  · show st.sem_used - 1 + 1 = st.sem_used
    omega
  · rfl
  · rfl

/-- Writing one word with a free slot available appends it to the
unconsumed words and preserves the invariant. -/
theorem writeWord_spec (w : Int) (st : circular_buffer_t)
    (hinv : bufInv st) (hfree : st.sem_free ≠ 0) :
    bufInv (writeWord w st) ∧ contents (writeWord w st) = contents st ++ [w] := by
  obtain ⟨hlen, hr, hw, hcount⟩ := hinv
  have hused : st.sem_used < MAX_DATA := by omega
  constructor
  · refine ⟨?_, hr, ?_, ?_⟩
    · simpa [writeWord] using hlen
    · show (st.shm.write_idx + 1) % MAX_DATA
        = (st.shm.read_idx + (st.sem_used + 1)) % MAX_DATA
      rw [hw, Nat.mod_add_mod]
      rfl
    · show st.sem_used + 1 + (st.sem_free - 1) = MAX_DATA
      omega
  · show (List.range (st.sem_used + 1)).map
        (fun k => (st.shm.data.set st.shm.write_idx w).getD
          ((st.shm.read_idx + k) % MAX_DATA) 0)
        = contents st ++ [w]
    rw [List.range_succ, List.map_append, List.map_cons, List.map_nil, contents]
    congr 1
    · refine List.map_congr_left (fun k hk => ?_)
      have hk' : k < st.sem_used := List.mem_range.mp hk
      refine getD_set_ne _ _ _ _ ?_
      rw [hw]
      intro hEq
      exact absurd (add_mod_window_inj _ _ _ _ hused (by omega) hEq) (by omega)
    · rw [hw]
      rw [getD_set_self _ _ _ (by rw [hlen]; exact Nat.mod_lt _ (by decide))]

/-! ### The write loop of add_solution -/

/-- Running the write loop with no halt observed and no interruption, with
enough free slots, writes the whole word list, appending it to the
unconsumed words. -/
theorem writeLoop_ok : ∀ (ws : List Int) (i : Nat) (st : circular_buffer_t),
    bufInv st → ws.length ≤ st.sem_free →
    ∃ st', writeLoop (fun _ => false) (fun _ => true) ws i st = some (true, st', ws) ∧
      bufInv st' ∧ contents st' = contents st ++ ws ∧
      st'.sem_mutex = st.sem_mutex + 1 ∧ st'.sem_used = st.sem_used + ws.length
  | [], _, st, hinv, _ =>
    ⟨mutexPost st, rfl, hinv, by simp [mutexPost, contents], rfl, rfl⟩
  | w :: ws, i, st, hinv, hfree => by
    have hfree' : ws.length + 1 ≤ st.sem_free := by simpa using hfree
    have hf0 : st.sem_free ≠ 0 := by omega
    obtain ⟨hinv1, hcont1⟩ := writeWord_spec w st hinv hf0
    have hfree1 : ws.length ≤ (writeWord w st).sem_free := by
      show ws.length ≤ st.sem_free - 1
      omega
    obtain ⟨st', heq, hinv', hcont', hmut, hused⟩ :=
      writeLoop_ok ws (i + 1) (writeWord w st) hinv1 hfree1
    refine ⟨st', ?_, hinv', ?_, ?_, ?_⟩
    · simp only [writeLoop, if_neg hf0]
      rw [heq]
      simp
    · rw [hcont', hcont1, List.append_assoc]
      rfl
    · exact hmut
    · rw [hused]
      show st.sem_used + 1 + ws.length = st.sem_used + (w :: ws).length
      simp only [List.length_cons]
      omega

/-- Whenever the write loop reports true (for any halt and interruption
oracles), it wrote exactly its word list, one free-decrement and one
used-increment per word, and advanced write_idx by the word count mod
MAX_DATA. -/
theorem writeLoop_true_elim : ∀ (haltAt freeOk : Nat → Bool) (ws : List Int)
    (i : Nat) (st st' : circular_buffer_t) (tr : List Int),
    st.shm.write_idx < MAX_DATA →
    writeLoop haltAt freeOk ws i st = some (true, st', tr) →
    tr = ws ∧ st'.sem_mutex = st.sem_mutex + 1 ∧
    st'.sem_used = st.sem_used + ws.length ∧
    st'.sem_free + ws.length = st.sem_free ∧
    st'.shm.write_idx = (st.shm.write_idx + ws.length) % MAX_DATA
  | haltAt, freeOk, [], i, st, st', tr, hw, h => by
    simp only [writeLoop, Option.some.injEq, Prod.mk.injEq, true_and] at h
    obtain ⟨hst, htr⟩ := h
    subst hst htr
    refine ⟨rfl, rfl, rfl, rfl, ?_⟩
    show st.shm.write_idx = (st.shm.write_idx + 0) % MAX_DATA
    rw [Nat.add_zero, Nat.mod_eq_of_lt hw]
  | haltAt, freeOk, w :: ws, i, st, st', tr, hw, h => by
    rw [writeLoop] at h
    by_cases hh : haltAt i = true
    · rw [if_pos hh] at h
      simp at h
    · rw [if_neg hh] at h
      by_cases hf : freeOk i = true
      · rw [if_pos hf] at h
        by_cases h0 : st.sem_free = 0
        · rw [if_pos h0] at h
          simp at h
        · rw [if_neg h0] at h
          cases hrec : writeLoop haltAt freeOk ws (i + 1) (writeWord w st) with
          | none => rw [hrec] at h; simp at h
          | some p =>
            obtain ⟨ok, stR, trR⟩ := p
            rw [hrec] at h
            simp only [Option.some.injEq, Prod.mk.injEq] at h
            obtain ⟨hok, hst, htr⟩ := h
            subst hok
            subst htr
            have hw1 : (writeWord w st).shm.write_idx < MAX_DATA := by
              show (st.shm.write_idx + 1) % MAX_DATA < MAX_DATA
              exact Nat.mod_lt _ (by decide)
            obtain ⟨htr', hmut, hused, hfree, hwidx⟩ :=
              writeLoop_true_elim haltAt freeOk ws (i + 1) (writeWord w st) stR trR hw1 hrec
            subst htr'
            rw [← hst]
            refine ⟨rfl, ?_, ?_, ?_, ?_⟩
            · exact hmut
            · rw [hused]
              show st.sem_used + 1 + trR.length = st.sem_used + (w :: trR).length
              simp only [List.length_cons]
              omega
            · have h2 : stR.sem_free + trR.length = st.sem_free - 1 := hfree
              simp only [List.length_cons]
              omega
            · rw [hwidx]
              show ((st.shm.write_idx + 1) % MAX_DATA + trR.length) % MAX_DATA
                = (st.shm.write_idx + (w :: trR).length) % MAX_DATA
              rw [Nat.mod_add_mod]
              simp only [List.length_cons]
              congr 1
              omega
      · rw [if_neg hf] at h
        simp at h

/-- If the first k halt reads are clear, the read at iteration k observes
halt, and the first k free-waits are uninterrupted, the write loop stops
after writing exactly the first k words, releasing the mutex. -/
theorem writeLoop_halt : ∀ (k : Nat) (haltAt freeOk : Nat → Bool) (ws : List Int)
    (i : Nat) (st : circular_buffer_t),
    (∀ j, j < k → haltAt (i + j) = false) → haltAt (i + k) = true →
    (∀ j, j < k → freeOk (i + j) = true) → k < ws.length → k ≤ st.sem_free →
    ∃ st', writeLoop haltAt freeOk ws i st = some (false, st', ws.take k) ∧
      st'.sem_mutex = st.sem_mutex + 1 ∧ st'.sem_used = st.sem_used + k ∧
      st'.sem_free + k = st.sem_free ∧ (k = 0 → st'.shm = st.shm)
  | 0, haltAt, freeOk, ws, i, st, _, hhalt, _, hklen, _ => by
    cases ws with
    | nil => simp at hklen
    | cons w rest =>
      have hhalt' : haltAt i = true := by simpa using hhalt
      refine ⟨mutexPost st, ?_, rfl, rfl, rfl, fun _ => rfl⟩
      rw [writeLoop, if_pos hhalt']
      rfl
  | k + 1, haltAt, freeOk, ws, i, st, hpre, hhalt, hfo, hklen, hkfree => by
    cases ws with
    | nil => simp at hklen
    | cons w rest =>
      have hh0 : haltAt i = false := by
        have := hpre 0 (by omega)
        simpa using this
      have hf0 : freeOk i = true := by
        have := hfo 0 (by omega)
        simpa using this
      have hfree0 : st.sem_free ≠ 0 := by omega
      obtain ⟨st', heq, hmut, hused, hfree, -⟩ :=
        writeLoop_halt k haltAt freeOk rest (i + 1) (writeWord w st)
          (fun j hj => by
            have e : i + 1 + j = i + (j + 1) := by omega
            rw [e]
            exact hpre (j + 1) (by omega))
          (by
            have e : i + 1 + k = i + (k + 1) := by omega
            rw [e]
            exact hhalt)
          (fun j hj => by
            have e : i + 1 + j = i + (j + 1) := by omega
            rw [e]
            exact hfo (j + 1) (by omega))
          (by simp at hklen; omega)
          (by
            show k ≤ st.sem_free - 1
            omega)
      refine ⟨st', ?_, hmut, ?_, ?_, fun hc => by omega⟩
      · rw [writeLoop, if_neg (by simp [hh0]), if_pos hf0, if_neg hfree0, heq]
        rfl
      · rw [hused]
        show st.sem_used + 1 + k = st.sem_used + (k + 1)
        omega
      · have : st'.sem_free + k = st.sem_free - 1 := hfree
        omega

/-! ### Sequential consumer reads -/

/-- n uninterrupted reads return exactly the first n unconsumed words. -/
theorem readN_spec : ∀ (pre suf : List Int) (st : circular_buffer_t),
    bufInv st → contents st = pre ++ suf →
    ∃ st', readN pre.length st = some (pre, st') ∧ bufInv st' ∧
      contents st' = suf ∧ st'.sem_used + pre.length = st.sem_used
  | [], suf, st, hinv, hc => ⟨st, rfl, hinv, by simpa using hc, by simp⟩
  | x :: pre, suf, st, hinv, hc => by
    obtain ⟨st1, heq1, hinv1, hc1, hu1, -, -⟩ :=
      read_buffer_cons st x (pre ++ suf) hinv (by simpa using hc)
    obtain ⟨st', heq', hinv', hc', hu'⟩ := readN_spec pre suf st1 hinv1 hc1
    refine ⟨st', ?_, hinv', hc', by simp only [List.length_cons]; omega⟩
    rw [List.length_cons]
    simp only [readN]
    rw [heq1]
    show (match readN pre.length st1 with
      | none => none
      | some (xs, st2) => some (x :: xs, st2)) = some (x :: pre, st')
    rw [heq']

/-- print_solution_string drains and returns a payload that contains no -1,
leaving the rest of the buffer unconsumed. -/
theorem print_spec : ∀ (payload suf : List Int) (st : circular_buffer_t),
    bufInv st → contents st = payload ++ suf → (-1 : Int) ∉ payload →
    ∃ st', print_solution_string payload.length st = some (payload, st') ∧
      bufInv st' ∧ contents st' = suf ∧ st'.sem_used + payload.length = st.sem_used
  | [], suf, st, hinv, hc, _ => ⟨st, rfl, hinv, by simpa using hc, by simp⟩
  | x :: payload, suf, st, hinv, hc, hpay => by
    have hx : ¬ (x = -1) := by
      intro h
      exact hpay (by rw [h]; exact List.mem_cons_self _ _)
    obtain ⟨st1, heq1, hinv1, hc1, hu1, -, -⟩ :=
      read_buffer_cons st x (payload ++ suf) hinv (by simpa using hc)
    have hpay1 : (-1 : Int) ∉ payload := fun h => hpay (List.mem_cons_of_mem _ h)
    obtain ⟨st', heq', hinv', hc', hu'⟩ := print_spec payload suf st1 hinv1 hc1 hpay1
    refine ⟨st', ?_, hinv', hc', by simp only [List.length_cons]; omega⟩
    rw [List.length_cons]
    simp only [print_solution_string]
    rw [heq1]
    show (if x = -1 then some ([], st1)
      else match print_solution_string payload.length st1 with
        | none => none
        | some (printed, st2) => some (x :: printed, st2)) = some (x :: payload, st')
    rw [if_neg hx, heq']

/-- skip_solution drains a payload that contains no -1, discarding it and
leaving the rest of the buffer unconsumed. -/
theorem skip_spec : ∀ (payload suf : List Int) (st : circular_buffer_t),
    bufInv st → contents st = payload ++ suf → (-1 : Int) ∉ payload →
    ∃ st', skip_solution payload.length st = some st' ∧
      bufInv st' ∧ contents st' = suf ∧ st'.sem_used + payload.length = st.sem_used
  | [], suf, st, hinv, hc, _ => ⟨st, rfl, hinv, by simpa using hc, by simp⟩
  | x :: payload, suf, st, hinv, hc, hpay => by
    have hx : ¬ (x = -1) := by
      intro h
      exact hpay (by rw [h]; exact List.mem_cons_self _ _)
    obtain ⟨st1, heq1, hinv1, hc1, hu1, -, -⟩ :=
      read_buffer_cons st x (payload ++ suf) hinv (by simpa using hc)
    have hpay1 : (-1 : Int) ∉ payload := fun h => hpay (List.mem_cons_of_mem _ h)
    obtain ⟨st', heq', hinv', hc', hu'⟩ := skip_spec payload suf st1 hinv1 hc1 hpay1
    refine ⟨st', ?_, hinv', hc', by simp only [List.length_cons]; omega⟩
    rw [List.length_cons]
    simp only [skip_solution]
    rw [heq1]
    show (if x = -1 then some st1 else skip_solution payload.length st1) = some st'
    rw [if_neg hx, heq']

/-! ### The claims -/

/-- C1: single-producer round trip: submitting a frame with payload words
edges (size = edges.length) into a buffer with no unconsumed words and then
performing 1 + size sequential read_buffer calls yields first the header
word size and then the payload words in identical order. -/
theorem add_then_read_roundtrip (edges : List Int) (st : circular_buffer_t)
    (hinv : bufInv st) (hempty : st.sem_used = 0) (hmutex : st.sem_mutex ≠ 0)
    (hcap : edges.length + 1 ≤ MAX_DATA) :
    ∃ st' st'',
      add_solution true (fun _ => false) (fun _ => true) edges edges.length st
        = some (true, st', (edges.length : Int) :: edges) ∧
      readN (1 + edges.length) st' = some ((edges.length : Int) :: edges, st'') := by
  have hfree : MAX_DATA ≤ st.sem_free := by
    obtain ⟨-, -, -, hc⟩ := hinv
    omega
  have hlenW : (frameWords edges edges.length).length
      ≤ ({ st with sem_mutex := st.sem_mutex - 1 } : circular_buffer_t).sem_free := by
    show (frameWords edges edges.length).length ≤ st.sem_free
    rw [frameWords_length]
    omega
  obtain ⟨st', heq, hinv', hcont', -, -⟩ :=
    writeLoop_ok (frameWords edges edges.length) 0
      { st with sem_mutex := st.sem_mutex - 1 } hinv hlenW
  have hcontS : contents st = [] := by
    rw [contents, hempty]
    rfl
  have hcont2 : contents st' = ((edges.length : Int) :: edges) ++ [] := by
    rw [hcont']
    have hcS : contents { st with sem_mutex := st.sem_mutex - 1 } = contents st := rfl
    rw [hcS, hcontS, frameWords_self]
    simp
  obtain ⟨st'', heqR, -, -, -⟩ :=
    readN_spec ((edges.length : Int) :: edges) [] st' hinv' hcont2
  refine ⟨st', st'', ?_, ?_⟩
  · rw [add_solution, if_neg (by simp), if_neg hmutex, heq, frameWords_self]
  · rw [List.length_cons] at heqR
    rw [Nat.add_comm 1 edges.length]
    exact heqR

/-- Witness for C1 at the spec's concrete scenario: header 4 and payload
10, 20, 30, 5 are read back in order as 4, 10, 20, 30, 5. -/
theorem add_then_read_roundtrip_witness :
    (bufInv st0 ∧ st0.sem_used = 0 ∧ st0.sem_mutex ≠ 0 ∧
      ([10, 20, 30, 5] : List Int).length + 1 ≤ MAX_DATA) ∧
    (∃ st' st'',
      add_solution true (fun _ => false) (fun _ => true) [10, 20, 30, 5]
          ([10, 20, 30, 5] : List Int).length st0
        = some (true, st', ((([10, 20, 30, 5] : List Int).length : Int) :: [10, 20, 30, 5])) ∧
      readN (1 + ([10, 20, 30, 5] : List Int).length) st'
        = some (((([10, 20, 30, 5] : List Int).length : Int) :: [10, 20, 30, 5]), st'')) :=
  ⟨⟨by decide, rfl, by decide, by decide⟩,
    add_then_read_roundtrip [10, 20, 30, 5] st0 (by decide) rfl (by decide) (by decide)⟩

/-- C2: every successful add_solution call transacts exactly 1 + size words:
the stored trace is the header word (whose value is size) followed by the
size payload words in order, the used count rises and the free count falls
by exactly 1 + size, write_idx advances by exactly 1 + size mod MAX_DATA,
and the mutex count is restored. -/
theorem add_solution_word_count (mutexOk : Bool) (haltAt freeOk : Nat → Bool)
    (edges : List Int) (size : Nat) (st st' : circular_buffer_t) (tr : List Int)
    (hw : st.shm.write_idx < MAX_DATA)
    (h : add_solution mutexOk haltAt freeOk edges size st = some (true, st', tr)) :
    tr = (size : Int) :: (List.range size).map (fun i => edges.getD i 0) ∧
    tr.length = size + 1 ∧
    st'.sem_used = st.sem_used + (size + 1) ∧
    st'.sem_free + (size + 1) = st.sem_free ∧
    st'.shm.write_idx = (st.shm.write_idx + (size + 1)) % MAX_DATA ∧
    st'.sem_mutex = st.sem_mutex := by
  cases mutexOk with
  | false =>
    rw [add_solution] at h
    simp at h
  | true =>
    rw [add_solution, if_neg (by simp)] at h
    by_cases hm : st.sem_mutex = 0
    · rw [if_pos hm] at h
      simp at h
    · rw [if_neg hm] at h
      obtain ⟨htr, hmut, hused, hfree, hwidx⟩ :=
        writeLoop_true_elim haltAt freeOk (frameWords edges size) 0
          { st with sem_mutex := st.sem_mutex - 1 } st' tr hw h
      refine ⟨?_, ?_, ?_, ?_, ?_, ?_⟩
      · rw [htr, frameWords_cons]
      · rw [htr, frameWords_length]
      · have h2 := hused
        rw [frameWords_length] at h2
        exact h2
      · have h2 := hfree
        rw [frameWords_length] at h2
        exact h2
      · have h2 := hwidx
        rw [frameWords_length] at h2
        exact h2
      · rw [hmut]
        show st.sem_mutex - 1 + 1 = st.sem_mutex
        omega

/-- Witness for C2: the concrete frame with payload 10, 20, 30, 5 submitted
into a fresh buffer transacts exactly 5 words. -/
theorem add_solution_word_count_witness :
    (st0.shm.write_idx < MAX_DATA ∧
      add_solution true (fun _ => false) (fun _ => true) [10, 20, 30, 5] 4 st0
        = some (true, stSkip, [4, 10, 20, 30, 5])) ∧
    (([4, 10, 20, 30, 5] : List Int)
        = (4 : Int) :: (List.range 4).map (fun i => ([10, 20, 30, 5] : List Int).getD i 0) ∧
      ([4, 10, 20, 30, 5] : List Int).length = 4 + 1 ∧
      stSkip.sem_used = st0.sem_used + (4 + 1) ∧
      stSkip.sem_free + (4 + 1) = st0.sem_free ∧
      stSkip.shm.write_idx = (st0.shm.write_idx + (4 + 1)) % MAX_DATA ∧
      stSkip.sem_mutex = st0.sem_mutex) :=
  ⟨⟨by decide, by decide⟩,
    add_solution_word_count true (fun _ => false) (fun _ => true) [10, 20, 30, 5] 4
      st0 stSkip [4, 10, 20, 30, 5] (by decide) (by decide)⟩

/-- C3 (code bug): the counts invariant used + free = capacity and the
binary mutex are NOT preserved by the failed-wait error paths: st0 satisfies
both, but a failed sem_wait(sem_used) in read_buffer is followed by
sem_post(sem_used), pushing used + free to MAX_DATA + 1, and a failed
sem_wait(sem_mutex) in add_solution is followed by sem_post(sem_mutex),
pushing the mutex count to 2. -/
theorem sem_error_paths_break_counts :
    st0.sem_used + st0.sem_free = MAX_DATA ∧ st0.sem_mutex = 1 ∧
    (read_buffer false st0).map (fun p => p.2.sem_used + p.2.sem_free)
      = some (MAX_DATA + 1) ∧
    (add_solution false (fun _ => false) (fun _ => true) [] 0 st0).map
      (fun p => p.2.1.sem_mutex) = some 2 := by
  decide

/-- C4: if the halt flag is observed clear at the first i halt checks and
set at check i (i within the frame), with the first i free-waits
uninterrupted, add_solution stops immediately: it returns the stopped
result false with the mutex released (its count restored), having stored
exactly the first i frame words — and nothing at all when i = 0. -/
theorem add_solution_halt_abort (haltAt freeOk : Nat → Bool)
    (edges : List Int) (size i : Nat) (st : circular_buffer_t)
    (hpre : ∀ j, j < i → haltAt j = false) (hhalt : haltAt i = true)
    (hfo : ∀ j, j < i → freeOk j = true)
    (hi : i ≤ size) (hfree : i ≤ st.sem_free) (hmutex : st.sem_mutex ≠ 0) :
    ∃ st', add_solution true haltAt freeOk edges size st
        = some (false, st', (frameWords edges size).take i) ∧
      st'.sem_mutex = st.sem_mutex ∧
      st'.sem_used = st.sem_used + i ∧
      st'.sem_free + i = st.sem_free ∧
      (i = 0 → st'.shm = st.shm) := by
  obtain ⟨st', heq, hmut, hused, hfree', hshm⟩ :=
    writeLoop_halt i haltAt freeOk (frameWords edges size) 0
      { st with sem_mutex := st.sem_mutex - 1 }
      (fun j hj => by rw [Nat.zero_add]; exact hpre j hj)
      (by rw [Nat.zero_add]; exact hhalt)
      (fun j hj => by rw [Nat.zero_add]; exact hfo j hj)
      (by rw [frameWords_length]; omega)
      hfree
  refine ⟨st', ?_, ?_, hused, hfree', hshm⟩
  · rw [add_solution, if_neg (by simp), if_neg hmutex, heq]
  · rw [hmut]
    show st.sem_mutex - 1 + 1 = st.sem_mutex
    omega

/-- Witness for C4: while writing header 4 and payload 10, 20, 30, 5 into a
fresh buffer, halt is observed at the third check (i = 2): the call stops
with exactly the two words 4, 10 written. -/
theorem add_solution_halt_abort_witness :
    ((∀ j, j < 2 → (fun n => decide (2 ≤ n)) j = false) ∧
      (fun n => decide (2 ≤ n)) 2 = true ∧
      (∀ j, j < 2 → (fun _ => true) j = true) ∧
      2 ≤ 4 ∧ 2 ≤ st0.sem_free ∧ st0.sem_mutex ≠ 0) ∧
    (∃ st', add_solution true (fun n => decide (2 ≤ n)) (fun _ => true)
          [10, 20, 30, 5] 4 st0
        = some (false, st', (frameWords [10, 20, 30, 5] 4).take 2) ∧
      st'.sem_mutex = st0.sem_mutex ∧
      st'.sem_used = st0.sem_used + 2 ∧
      st'.sem_free + 2 = st0.sem_free ∧
      (2 = 0 → st'.shm = st0.shm)) :=
  ⟨⟨by decide, by decide, by decide, by decide, by decide, by decide⟩,
    add_solution_halt_abort (fun n => decide (2 ≤ n)) (fun _ => true)
      [10, 20, 30, 5] 4 2 st0 (by decide) (by decide) (by decide)
      (by decide) (by decide) (by decide)⟩

/-- C5 (code bug): when the third sem_open (SEM_MUTEX) fails in
open_cbuff(server = true), the rollback path closes and unlinks the free
semaphore twice and never closes or unlinks the used semaphore, although
the used semaphore had been created: the already-acquired used semaphore is
leaked rather than rolled back. -/
theorem open_cbuff_mutex_fail_leaks_used_sem :
    (open_cbuff_server mutex_open_fails).1 = false ∧
    sem_name.used ∈ (open_cbuff_server mutex_open_fails).2.1 ∧
    (open_cbuff_server mutex_open_fails).2.2
      = [.sem_close .free, .sem_unlink .free,
         .sem_close .free, .sem_unlink .free, .close_shm_teardown] ∧
    rollback_act.sem_close .used ∉ (open_cbuff_server mutex_open_fails).2.2 ∧
    rollback_act.sem_unlink .used ∉ (open_cbuff_server mutex_open_fails).2.2 := by
  decide

/-- C6 counterexample: creating over a pre-existing shared memory region
does not fail: open_shm(server = true) succeeds on the existing name (its
flags are O_CREAT without O_EXCL) and silently re-initialises the region. -/
theorem open_shm_reuses_existing :
    open_shm (some stale_shm) true ≠ none ∧
    open_shm (some stale_shm) true
      = some { halt := false, data := stale_shm.data,
               write_idx := 0, read_idx := 0 } := by
  decide

/-- C6 amended: creation does not fail on a pre-existing region name — any
existing region is silently reused with its cursors and halt flag
re-initialised (and a fresh one is created when none exists); only the
semaphores, opened with O_CREAT | O_EXCL, make the create path fail when
their names already exist. -/
theorem open_shm_amended :
    (∀ existing : shared_memory_t,
      open_shm (some existing) true
        = some { halt := false, data := existing.data,
                 write_idx := 0, read_idx := 0 }) ∧
    (open_shm none true).isSome = true ∧
    (∀ v : Nat, sem_open_excl true v = none) ∧
    (∀ v : Nat, sem_open_excl false v = some v) :=
  ⟨fun _ => rfl, rfl, fun _ => rfl, fun _ => rfl⟩

/-- C7 counterexample: with exactly sem_close(sem_free) failing, a cleanup
step failed but close_cbuff still returns true — the claimed equivalence
between returning false and at least one step having failed does not hold. -/
theorem close_cbuff_result_ignores_sem_failures :
    ¬ (((close_cbuff only_sem_close_free_fails true).1 = false) ↔
      any_step_failed only_sem_close_free_fails true = true) := by
  decide

/-- C7 amended: close_cbuff attempts every cleanup step unconditionally,
but its return value reflects only the close_shm steps (munmap, close of
the fd and, for the server, shm_unlink of the region): it returns false iff
one of those failed; failures of the sem_close and sem_unlink calls are
ignored. -/
theorem close_cbuff_best_effort_amended :
    ∀ (f : close_fail_t) (server : Bool),
      (close_cbuff f server).2 = close_cbuff_steps server ∧
      ((close_cbuff f server).1 = false ↔
        (f.munmap_fail = true ∨ f.close_fd_fail = true ∨
          (server = true ∧ f.shm_unlink_fail = true))) := by
  intro f server
  refine ⟨rfl, ?_⟩
  obtain ⟨a, b, c, d, e, g, m, n, q⟩ := f
  cases server <;> cases m <;> cases n <;> cases q <;>
    simp [close_cbuff, close_shm]

/-- C8: for a well-formed frame at the head of the buffer (header at least
0, a payload of header words, none of them -1), one supervisor iteration
records deletions = header / 2 as the new best exactly when this is the
first frame (min_deletions = -1) or a strict improvement; otherwise it
drains exactly the header word and its header payload words, reports
nothing, and leaves min_deletions unchanged. -/
theorem supervisor_step_best_and_skip (min_deletions header : Int)
    (payload rest : List Int) (st : circular_buffer_t)
    (hinv : bufInv st) (hcont : contents st = header :: (payload ++ rest))
    (hlen : payload.length = header.toNat) (hheader : 0 ≤ header)
    (hpay : (-1 : Int) ∉ payload) :
    (¬ (min_deletions = -1 ∨ Int.tdiv header 2 < min_deletions) →
      ∃ st', supervisor_step min_deletions st
          = some (.next min_deletions [] st') ∧
        bufInv st' ∧ contents st' = rest ∧
        st'.sem_used + (1 + payload.length) = st.sem_used) ∧
    ((min_deletions = -1 ∨ Int.tdiv header 2 < min_deletions) →
      (Int.tdiv header 2 = 0 →
        ∃ st', supervisor_step min_deletions st
            = some (.halted 0 st') ∧ st'.sem_used + 1 = st.sem_used) ∧
      (Int.tdiv header 2 ≠ 0 →
        ∃ st', supervisor_step min_deletions st
            = some (.next (Int.tdiv header 2) payload st') ∧
          bufInv st' ∧ contents st' = rest ∧
          st'.sem_used + (1 + payload.length) = st.sem_used)) := by
  obtain ⟨st1, heq1, hinv1, hc1, hu1, -, -⟩ :=
    read_buffer_cons st header (payload ++ rest) hinv hcont
  have hne : ¬ (header = -1) := by omega
  have hstep : supervisor_step min_deletions st
      = (if header = -1 then some (sup_outcome.fail st1)
        else if min_deletions = -1 ∨ Int.tdiv header 2 < min_deletions then
          (if Int.tdiv header 2 = 0 then
            some (sup_outcome.halted (Int.tdiv header 2) st1)
          else
            match print_solution_string header.toNat st1 with
            | none => none
            | some (reported, st2) =>
              some (sup_outcome.next (Int.tdiv header 2) reported st2))
        else
          match skip_solution header.toNat st1 with
          | none => none
          | some st2 => some (sup_outcome.next min_deletions [] st2)) := by
    rw [supervisor_step, heq1]
  constructor
  · intro hcondN
    obtain ⟨st2, heq2, hinv2, hc2, hu2⟩ := skip_spec payload rest st1 hinv1 hc1 hpay
    refine ⟨st2, ?_, hinv2, hc2, by omega⟩
    rw [hstep, if_neg hne, if_neg hcondN, ← hlen, heq2]
  · intro hcond
    constructor
    · intro hz
      refine ⟨st1, ?_, by omega⟩
      rw [hstep, if_neg hne, if_pos hcond, if_pos hz, hz]
    · intro hnz
      obtain ⟨st2, heq2, hinv2, hc2, hu2⟩ := print_spec payload rest st1 hinv1 hc1 hpay
      refine ⟨st2, ?_, hinv2, hc2, by omega⟩
      rw [hstep, if_neg hne, if_pos hcond, if_neg hnz, ← hlen, heq2]

/-- Witness for C8 at the spec's skip scenario: best so far 1, incoming
frame header 4 (deletions 2): the payload 10, 20, 30, 5 is fully drained,
nothing is reported and the best stays 1; the same instantiation also
covers the improvement branch vacuously via its hypothesis. -/
theorem supervisor_step_best_and_skip_witness :
    (bufInv stSkip ∧ contents stSkip = 4 :: ([10, 20, 30, 5] ++ []) ∧
      ([10, 20, 30, 5] : List Int).length = (4 : Int).toNat ∧
      (0 : Int) ≤ 4 ∧ (-1 : Int) ∉ ([10, 20, 30, 5] : List Int)) ∧
    ((¬ ((1 : Int) = -1 ∨ Int.tdiv 4 2 < 1) →
      ∃ st', supervisor_step 1 stSkip = some (.next 1 [] st') ∧
        bufInv st' ∧ contents st' = [] ∧
        st'.sem_used + (1 + ([10, 20, 30, 5] : List Int).length) = stSkip.sem_used) ∧
    (((1 : Int) = -1 ∨ Int.tdiv 4 2 < 1) →
      (Int.tdiv 4 2 = 0 →
        ∃ st', supervisor_step 1 stSkip = some (.halted 0 st') ∧
          st'.sem_used + 1 = stSkip.sem_used) ∧
      (Int.tdiv 4 2 ≠ 0 →
        ∃ st', supervisor_step 1 stSkip
            = some (.next (Int.tdiv 4 2) [10, 20, 30, 5] st') ∧
          bufInv st' ∧ contents st' = [] ∧
          st'.sem_used + (1 + ([10, 20, 30, 5] : List Int).length)
            = stSkip.sem_used))) :=
  ⟨⟨by decide, by decide, by decide, by decide, by decide⟩,
    supervisor_step_best_and_skip 1 4 [10, 20, 30, 5] [] stSkip
      (by decide) (by decide) (by decide) (by decide) (by decide)⟩

/-- C9: when the frame at the head of the buffer has header 0 and this is
the first frame (min_deletions = -1) or an improvement (current best
positive), the supervisor announces that the graph is 3-colorable and the
loop terminates having consumed exactly the one header word — no further
frame is read, for every remaining fuel. -/
theorem supervisor_zero_header_halts (fuel : Nat) (min_deletions : Int)
    (rest : List Int) (st : circular_buffer_t)
    (hinv : bufInv st) (hcont : contents st = 0 :: rest)
    (himpr : min_deletions = -1 ∨ 0 < min_deletions) :
    ∃ st', supervisor_loop (fuel + 1) min_deletions st
        = some (.announced 0 st') ∧
      st'.sem_used + 1 = st.sem_used ∧
      st'.shm.read_idx = (st.shm.read_idx + 1) % MAX_DATA ∧
      contents st' = rest := by
  obtain ⟨st1, heq1, hinv1, hc1, hu1, -, hr1⟩ :=
    read_buffer_cons st 0 rest hinv hcont
  have hstep : supervisor_step min_deletions st
      = some (sup_outcome.halted 0 st1) := by
    rw [supervisor_step, heq1]
    show (if (0 : Int) = -1 then some (sup_outcome.fail st1)
      else if min_deletions = -1 ∨ Int.tdiv 0 2 < min_deletions then
        (if Int.tdiv 0 2 = 0 then some (sup_outcome.halted (Int.tdiv 0 2) st1)
        else
          match print_solution_string (0 : Int).toNat st1 with
          | none => none
          | some (reported, st2) =>
            some (sup_outcome.next (Int.tdiv 0 2) reported st2))
      else
        match skip_solution (0 : Int).toNat st1 with
        | none => none
        | some st2 => some (sup_outcome.next min_deletions [] st2))
      = some (sup_outcome.halted 0 st1)
    rw [if_neg (by decide),
      if_pos (show min_deletions = -1 ∨ Int.tdiv 0 2 < min_deletions from himpr),
      if_pos (by decide)]
    rfl
  refine ⟨st1, ?_, by omega, hr1, hc1⟩
  simp only [supervisor_loop]
  rw [hstep]

/-- Witness for C9: a buffer holding the single header word 0, first frame:
the loop announces 3-colorability after exactly one read. -/
theorem supervisor_zero_header_halts_witness :
    (bufInv stZero ∧ contents stZero = 0 :: ([] : List Int) ∧
      ((-1 : Int) = -1 ∨ (0 : Int) < -1)) ∧
    (∃ st', supervisor_loop (0 + 1) (-1) stZero = some (.announced 0 st') ∧
      st'.sem_used + 1 = stZero.sem_used ∧
      st'.shm.read_idx = (stZero.shm.read_idx + 1) % MAX_DATA ∧
      contents st' = []) :=
  ⟨⟨by decide, by decide, Or.inl rfl⟩,
    supervisor_zero_header_halts 0 (-1) [] stZero (by decide) (by decide)
      (Or.inl rfl)⟩

/-- C10: read_buffer's failure sentinel -1 collides with the data domain:
a stored word -1 is returned exactly like the semaphore-failure return; a
frame with a -1 payload word, submitted through add_solution itself, makes
the supervisor stop draining mid-payload both on its skip path (best 1) and
on its print path (best 2), leaving one payload word unconsumed although
every semaphore wait succeeded; and a stored header word -1 sends the
supervisor down its failure exit. -/
theorem read_error_sentinel_collision :
    (read_buffer false stNeg).map Prod.fst = some (-1) ∧
    (read_buffer true stNeg).map Prod.fst = some (-1) ∧
    add_solution true (fun _ => false) (fun _ => true) [-1, 7] 2 st0
      = some (true, stA, [2, -1, 7]) ∧
    supervisor_step 1 stA = some (.next 1 [] stB) ∧
    supervisor_step 2 stA = some (.next 1 [] stB) ∧
    stB.sem_used = 1 ∧
    supervisor_step 5 stNeg = some (.fail stNegF) := by
  refine ⟨by decide, by decide, by decide, by decide, by decide, by decide, by decide⟩

end OSUE
